import Mathlib

/-!
Verification of the diagnostic context-extraction and rendering subsystem of
the `ta` source-analysis tool, against its specification.

The development shallowly embeds the Rust code of
`src/lib/src/highlighting/code_context.rs` and
`src/lib/src/highlighting/error_annotations.rs`.

Modelling conventions:
* a Rust `&str` is modelled as the list of its Unicode scalar values
  (`RStr := List Char`); byte offsets are `Nat`, related to the character
  list through `Char.utf8Size`, so that UTF-8 character-boundary behaviour
  is modelled faithfully;
* Rust functions that can panic are modelled as `Option`-valued functions,
  `none` meaning a panic;
* `u32`/`usize` values are modelled as `Nat`; the code under study performs
  no wrapping arithmetic (checked subtraction underflow is modelled as a
  panic where it can occur).
-/

namespace TA

/-- Rust `&str` source text, modelled as its list of characters. -/
abbrev RStr := List Char

/-- Byte length of the UTF-8 encoding of a text (Rust `str::len`). -/
def utf8Len : RStr → Nat
  | [] => 0
  | c :: cs => c.utf8Size + utf8Len cs

@[simp] theorem utf8Len_nil : utf8Len [] = 0 := rfl

@[simp] theorem utf8Len_cons (c : Char) (cs : RStr) :
    utf8Len (c :: cs) = c.utf8Size + utf8Len cs := rfl

theorem utf8Len_append (a b : RStr) : utf8Len (a ++ b) = utf8Len a + utf8Len b := by
  induction a with
  | nil => simp
  | cons c cs ih => simp [ih]; omega

/-- Rust `str::is_char_boundary`: a byte offset is a character boundary when
it is the byte length of some character-list prefix (offsets past the end or
inside the multi-byte encoding of a character are not boundaries). -/
def isCharBoundary : RStr → Nat → Bool
  | _, 0 => true
  | [], _ + 1 => false
  | c :: cs, i + 1 =>
    if i + 1 < c.utf8Size then false else isCharBoundary cs (i + 1 - c.utf8Size)

@[simp] theorem isCharBoundary_zero (s : RStr) : isCharBoundary s 0 = true := by
  cases s <;> rfl

/-- Characters of the byte slice `s[..i]`, snapped down if `i` falls inside a
character: the maximal character prefix whose UTF-8 encoding has at most `i`
bytes. For a boundary offset `i` this is exactly Rust's `&s[..i]`. -/
def takeBytes : RStr → Nat → RStr
  | [], _ => []
  | c :: cs, i => if c.utf8Size ≤ i then c :: takeBytes cs (i - c.utf8Size) else []

@[simp] theorem takeBytes_nil (i : Nat) : takeBytes [] i = [] := rfl

@[simp] theorem takeBytes_zero (s : RStr) : takeBytes s 0 = [] := by
  cases s with
  | nil => rfl
  | cons c cs =>
    have := c.utf8Size_pos
    simp [takeBytes]
    omega

/-- Characters of the byte slice `s[i..]` for a boundary offset `i`: what is
left after removing the characters that fit in the first `i` bytes. -/
def dropBytes : RStr → Nat → RStr
  | [], _ => []
  | c :: cs, i => if c.utf8Size ≤ i then dropBytes cs (i - c.utf8Size) else c :: cs

/-- Characters of the byte slice `s[a..b]` (for boundary offsets). -/
def byteSlice (s : RStr) (a b : Nat) : RStr :=
  takeBytes (dropBytes s a) (b - a)

/-- Rust loop `(0..=i).rev().find(is_char_boundary).unwrap_or(0)` from
`calculate_line_number` and `calculate_column_number`: the nearest character
boundary at or below `i`. -/
def snapDown (s : RStr) : Nat → Nat
  | 0 => 0
  | i + 1 => if isCharBoundary s (i + 1) then i + 1 else snapDown s i

/-- Offset actually used by the position converters: the input offset if it is
a boundary, else the nearest boundary below it. -/
def safeOffset (s : RStr) (i : Nat) : Nat :=
  if isCharBoundary s i then i else snapDown s i

/-- Characters strictly after the last newline of a text; models
`rfind` followed by slicing to the end, as used for column computation. -/
def afterLastNl (l : RStr) : RStr :=
  (l.reverse.takeWhile (fun c => c != '\n')).reverse

/-- Rust `calculate_line_number` (code_context.rs): 1-based line of a byte
offset; returns 1 for offsets past the end, snaps non-boundary offsets down,
then counts newline characters before the offset. -/
def calculate_line_number (source : RStr) (byte_offset : Nat) : Nat :=
  if byte_offset > utf8Len source then 1
  else (takeBytes source (safeOffset source byte_offset)).count '\n' + 1

/-- Rust `calculate_column_number` (code_context.rs): 1-based column of a byte
offset; returns 1 for offsets past the end, snaps non-boundary offsets down,
then counts the characters between the last newline before the offset and the
offset. -/
def calculate_column_number (source : RStr) (byte_offset : Nat) : Nat :=
  if byte_offset > utf8Len source then 1
  else (afterLastNl (takeBytes source (safeOffset source byte_offset))).length + 1

theorem utf8Len_takeBytes_of_boundary (s : RStr) :
    ∀ i, isCharBoundary s i = true → utf8Len (takeBytes s i) = i := by
  induction s with
  | nil =>
    intro i h
    cases i with
    | zero => simp
    | succ j => simp [isCharBoundary] at h
  | cons c cs ih =>
    intro i h
    cases i with
    | zero => simp
    | succ j =>
      rw [isCharBoundary] at h
      by_cases hlt : j + 1 < c.utf8Size
      · simp [hlt] at h
      · rw [if_neg hlt] at h
        have hle : c.utf8Size ≤ j + 1 := Nat.not_lt.mp hlt
        rw [takeBytes, if_pos hle]
        simp [ih _ h]
        omega

theorem takeBytes_succ_of_not_boundary (s : RStr) :
    ∀ i, isCharBoundary s (i + 1) = false → takeBytes s (i + 1) = takeBytes s i := by
  induction s with
  | nil => intro i _; rfl
  | cons c cs ih =>
    intro i h
    rw [isCharBoundary] at h
    by_cases hlt : i + 1 < c.utf8Size
    · rw [takeBytes, if_neg (by omega), takeBytes, if_neg (by omega)]
    · rw [if_neg hlt] at h
      have hle : c.utf8Size ≤ i + 1 := Nat.not_lt.mp hlt
      by_cases heq : c.utf8Size = i + 1
      · exfalso
        rw [← heq, Nat.sub_self] at h
        simp at h
      · have hle2 : c.utf8Size ≤ i := by omega
        rw [takeBytes, if_pos hle, takeBytes, if_pos hle2]
        have harith : i + 1 - c.utf8Size = (i - c.utf8Size) + 1 := by omega
        rw [harith] at h
        rw [harith, ih _ h]

theorem takeBytes_utf8Len_takeBytes (s : RStr) :
    ∀ i, takeBytes s (utf8Len (takeBytes s i)) = takeBytes s i := by
  induction s with
  | nil => intro i; rfl
  | cons c cs ih =>
    intro i
    by_cases hle : c.utf8Size ≤ i
    · have hrhs : takeBytes (c :: cs) i = c :: takeBytes cs (i - c.utf8Size) := by
        rw [takeBytes, if_pos hle]
      rw [hrhs, utf8Len_cons, takeBytes, if_pos (Nat.le_add_right _ _),
        Nat.add_sub_cancel_left, ih]
    · have hrhs : takeBytes (c :: cs) i = [] := by rw [takeBytes, if_neg hle]
      rw [hrhs, utf8Len_nil, takeBytes_zero]

theorem snapDown_eq (s : RStr) : ∀ i, snapDown s i = utf8Len (takeBytes s i) := by
  intro i
  induction i with
  | zero => simp [snapDown]
  | succ j ih =>
    rw [snapDown]
    by_cases hb : isCharBoundary s (j + 1)
    · rw [if_pos hb, utf8Len_takeBytes_of_boundary s _ hb]
    · rw [if_neg hb, ih,
        takeBytes_succ_of_not_boundary s j (Bool.not_eq_true _ ▸ hb)]

theorem takeBytes_safeOffset (s : RStr) (i : Nat) :
    takeBytes s (safeOffset s i) = takeBytes s i := by
  unfold safeOffset
  by_cases hb : isCharBoundary s i
  · rw [if_pos hb]
  · rw [if_neg hb, snapDown_eq, takeBytes_utf8Len_takeBytes]

/-- Claim C1: for every UTF-8 source and every byte offset, the two position
converters are total (modelled as plain functions: no panic) and return a
value at least 1; offsets past the end yield 1; in-range offsets are snapped
down to a character boundary and yield, respectively, the newline count
strictly before the offset plus 1, and the character count from the start of
the line containing the offset up to the offset plus 1. -/
theorem C1_offset_to_position (s : RStr) (off : Nat) :
    1 ≤ calculate_line_number s off ∧ 1 ≤ calculate_column_number s off ∧
    (utf8Len s < off →
      calculate_line_number s off = 1 ∧ calculate_column_number s off = 1) ∧
    (off ≤ utf8Len s →
      calculate_line_number s off = (takeBytes s off).count '\n' + 1 ∧
      calculate_column_number s off =
        (afterLastNl (takeBytes s off)).length + 1) := by
  unfold calculate_line_number calculate_column_number
  by_cases h : utf8Len s < off
  · simp [h]
  · have h2 : ¬ (off > utf8Len s) := h
    rw [if_neg h2, if_neg h2, takeBytes_safeOffset]
    refine ⟨by omega, by omega, fun hc => absurd hc h, fun _ => ⟨rfl, rfl⟩⟩

/-- Closed instance of C1 on a multi-byte text with an offset inside a
character (byte 4 falls inside the euro sign, whose encoding spans
bytes 2 to 4): the offset snaps down and the converters agree with the
newline-count and column-count specification. -/
theorem C1_offset_to_position_witness :
    calculate_line_number ("a\n€b".toList) 4 =
      (takeBytes ("a\n€b".toList) 4).count '\n' + 1 ∧
    calculate_column_number ("a\n€b".toList) 4 =
      (afterLastNl (takeBytes ("a\n€b".toList) 4)).length + 1 :=
  (C1_offset_to_position ("a\n€b".toList) 4).2.2.2 (by decide)

/-! ### Spans and the span-text extractor -/

/-- Byte-range span (oxc `Span`; fields are `u32` byte offsets in the source).
The Rust field `end` is a Lean keyword and is modelled as `stop`. -/
structure Span where
  start : Nat
  stop : Nat
deriving DecidableEq, Repr

/-- oxc `Span::size`: width of the span in bytes. -/
def Span.size (s : Span) : Nat := s.stop - s.start

/-- oxc `Span::contains_inclusive`: whether `a` contains all of `b`. -/
def Span.contains_inclusive (a b : Span) : Bool :=
  decide (a.start ≤ b.start) && decide (b.stop ≤ a.stop)

/-- Error type of the highlighting subsystem (error.rs `HighlightError`);
only the payloads relevant to this development are carried. -/
inductive HighlightError where
  | UnsupportedLanguage (name : String)
  | ThemeNotFound (name : String)
  | ThemeLoadError
  | InvalidSpan (line : Nat) (column : Nat)
  | CodeBlockTooLarge (size : Nat) (max : Nat)
deriving DecidableEq, Repr

/-- Rust `extract_span_text` (code_context.rs): substring of `source` covered
by `span`, or `InvalidSpan` when the span is inverted, out of bounds, or not
on character boundaries. -/
def extract_span_text (source : RStr) (span : Span) :
    Except HighlightError RStr :=
  let start := span.start
  let stop := span.stop
  if start > stop then
    .error (.InvalidSpan (calculate_line_number source (min start (utf8Len source)))
      (calculate_column_number source (min start (utf8Len source))))
  else if stop > utf8Len source ∨ start > utf8Len source then
    .error (.InvalidSpan (calculate_line_number source (min start (utf8Len source)))
      (calculate_column_number source (min start (utf8Len source))))
  else if ¬ (isCharBoundary source start = true) ∨ ¬ (isCharBoundary source stop = true) then
    .error (.InvalidSpan (calculate_line_number source start)
      (calculate_column_number source start))
  else
    .ok (byteSlice source start stop)

theorem utf8Len_takeBytes_le (s : RStr) : ∀ i, utf8Len (takeBytes s i) ≤ utf8Len s := by
  induction s with
  | nil => intro i; simp
  | cons c cs ih =>
    intro i
    by_cases hle : c.utf8Size ≤ i
    · rw [takeBytes, if_pos hle, utf8Len_cons, utf8Len_cons]
      exact Nat.add_le_add_left (ih _) _
    · rw [takeBytes, if_neg hle]
      simp

theorem utf8Len_dropBytes_le (s : RStr) : ∀ i, utf8Len (dropBytes s i) ≤ utf8Len s := by
  induction s with
  | nil => intro i; simp [dropBytes]
  | cons c cs ih =>
    intro i
    by_cases hle : c.utf8Size ≤ i
    · rw [dropBytes, if_pos hle]
      exact Nat.le_trans (ih _) (by simp)
    · rw [dropBytes, if_neg hle]

theorem utf8Len_byteSlice_le (s : RStr) (a b : Nat) :
    utf8Len (byteSlice s a b) ≤ utf8Len s :=
  Nat.le_trans (utf8Len_takeBytes_le _ _) (utf8Len_dropBytes_le _ _)

/-- Claim C2: the extractor returns the exact substring if and only if the
span is well ordered, in bounds and character-aligned; in every other case it
returns `InvalidSpan` with the position of the clamped span start; it is
total (no panic), and a returned substring is never byte-longer than the
source. -/
theorem C2_extract_span_text (source : RStr) (span : Span) :
    (extract_span_text source span = .ok (byteSlice source span.start span.stop) ↔
      (span.start ≤ span.stop ∧ span.start ≤ utf8Len source ∧
       span.stop ≤ utf8Len source ∧ isCharBoundary source span.start = true ∧
       isCharBoundary source span.stop = true)) ∧
    (¬ (span.start ≤ span.stop ∧ span.start ≤ utf8Len source ∧
        span.stop ≤ utf8Len source ∧ isCharBoundary source span.start = true ∧
        isCharBoundary source span.stop = true) →
      extract_span_text source span =
        .error (.InvalidSpan
          (calculate_line_number source (min span.start (utf8Len source)))
          (calculate_column_number source (min span.start (utf8Len source))))) ∧
    (∀ t, extract_span_text source span = .ok t → utf8Len t ≤ utf8Len source) := by
  unfold extract_span_text
  by_cases h1 : span.start > span.stop
  · rw [if_pos h1]
    refine ⟨⟨fun h => by simp at h, fun h => absurd h1 (by omega)⟩, fun _ => rfl,
      fun t ht => by simp at ht⟩
  · rw [if_neg h1]
    by_cases h2 : span.stop > utf8Len source ∨ span.start > utf8Len source
    · rw [if_pos h2]
      refine ⟨⟨fun h => by simp at h, fun h => absurd h2 (by omega)⟩, fun _ => rfl,
        fun t ht => by simp at ht⟩
    · rw [if_neg h2]
      by_cases h3 : ¬ (isCharBoundary source span.start = true) ∨
          ¬ (isCharBoundary source span.stop = true)
      · rw [if_pos h3]
        have hmin : min span.start (utf8Len source) = span.start := by omega
        rw [hmin]
        refine ⟨⟨fun h => by simp at h, fun h => absurd h3 (by tauto)⟩, fun _ => rfl,
          fun t ht => by simp at ht⟩
      · rw [if_neg h3]
        push_neg at h3
        obtain ⟨hb1, hb2⟩ := h3
        push_neg at h2
        refine ⟨⟨fun _ => ⟨by omega, by omega, by omega, hb1, hb2⟩, fun _ => rfl⟩,
          fun hcond => absurd ⟨by omega, by omega, by omega, hb1, hb2⟩ hcond,
          fun t ht => ?_⟩
        have heq : byteSlice source span.start span.stop = t := by simpa using ht
        rw [← heq]
        exact utf8Len_byteSlice_le source span.start span.stop

/-- Closed instance of C2: a valid span over a multi-byte text extracts the
exact substring, and an out-of-bounds span on the same text yields
`InvalidSpan` at the clamped position. -/
theorem C2_extract_span_text_witness :
    extract_span_text ("héllo".toList) ⟨1, 3⟩ =
      .ok (byteSlice ("héllo".toList) 1 3) :=
  (C2_extract_span_text ("héllo".toList) ⟨1, 3⟩).1.mpr (by decide)

/-! ### Line splitting and the truncation engine -/

/-- Split at every newline character, keeping all (possibly empty) pieces. -/
def splitNl : RStr → List RStr
  | [] => [[]]
  | c :: cs =>
    if c = '\n' then [] :: splitNl cs
    else
      match splitNl cs with
      | [] => [[c]]
      | l :: ls => (c :: l) :: ls

/-- Removal of one trailing carriage return from a line, as Rust
`str::lines` does. -/
def stripCr (l : RStr) : RStr :=
  match l.getLast? with
  | some c => if c = '\r' then l.dropLast else l
  | none => l

/-- Map over every element except the last, which is kept verbatim. -/
def mapInit (f : RStr → RStr) : List RStr → List RStr
  | [] => []
  | [l] => [l]
  | l :: l2 :: ls => f l :: mapInit f (l2 :: ls)

/-- Rust `str::lines`: pieces split at newlines, with a final empty piece
(present exactly when the text ends with a newline) dropped. A carriage
return directly before a newline is removed with it (the line terminator may
be CRLF), but a bare carriage return at the very end of the text stays: only
newline-terminated pieces are stripped, so the final piece of a text without
a trailing newline is kept verbatim. -/
def rustLines (s : RStr) : List RStr :=
  if s = [] then []
  else if s.getLast? = some '\n' then ((splitNl s).dropLast).map stripCr
  else mapInit stripCr (splitNl s)

/-- Rust `Vec::join` with a newline separator, as used on the displayed
lines. -/
def joinNl : List RStr → RStr
  | [] => []
  | [l] => l
  | l :: l2 :: ls => l ++ '\n' :: joinNl (l2 :: ls)

/-- Unicode code points with the White_Space property, which Rust
`char::is_whitespace` (and hence `str::trim`) recognises: TAB through CR,
space, NEL, no-break space, ogham space mark, the U+2000..U+200A spaces,
line and paragraph separators, narrow no-break space, medium mathematical
space, and ideographic space. -/
def isRustWhitespace (c : Char) : Bool :=
  decide (c.toNat = 0x09 ∨ c.toNat = 0x0A ∨ c.toNat = 0x0B ∨ c.toNat = 0x0C ∨
    c.toNat = 0x0D ∨ c.toNat = 0x20 ∨ c.toNat = 0x85 ∨ c.toNat = 0xA0 ∨
    c.toNat = 0x1680 ∨ (0x2000 ≤ c.toNat ∧ c.toNat ≤ 0x200A) ∨
    c.toNat = 0x2028 ∨ c.toNat = 0x2029 ∨ c.toNat = 0x202F ∨
    c.toNat = 0x205F ∨ c.toNat = 0x3000)

/-- Rust `str::trim`: removal of leading and trailing Unicode whitespace. -/
def trim (l : RStr) : RStr :=
  ((l.dropWhile isRustWhitespace).reverse.dropWhile isRustWhitespace).reverse

/-- Whether `pat` occurs at the head of `hay`. -/
def startsSeq : RStr → RStr → Bool
  | _, [] => true
  | [], _ :: _ => false
  | c :: cs, p :: ps => c == p && startsSeq cs ps

/-- Rust `str::contains` with a literal pattern: substring occurrence. -/
def containsSeq : RStr → RStr → Bool
  | [], pat => startsSeq [] pat
  | c :: t, pat => startsSeq (c :: t) pat || containsSeq t pat

/-- Rust `is_block_start` (code_context.rs): a trimmed line that ends with an
opening brace and mentions a block-introducing keyword. -/
def is_block_start (line : RStr) : Bool :=
  let l := trim line
  if l.getLast? = some '\x7b' then
    containsSeq l ("function ".toList) || containsSeq l ("class ".toList) ||
    containsSeq l ("interface ".toList) || containsSeq l ("type ".toList) ||
    containsSeq l ("enum ".toList)
  else false

/-- Scope classification (code_context.rs `ScopeType`). -/
inductive ScopeType where
  | Function
  | Method
  | TypeUtility
  | ModuleLevel
deriving DecidableEq, Repr

/-- Truncation report (code_context.rs `TruncationInfo`). -/
structure TruncationInfo where
  original_line_count : Nat
  displayed_line_count : Nat
  truncated_sections : List (Nat × Nat)
deriving DecidableEq, Repr

/-- Rust `calculate_relative_line_number` (code_context.rs): 0-based line of
the error within the scope text. The Rust code slices
`scope_text[..offset_in_scope]` without a character-boundary check; a
non-boundary offset makes that slice panic, modelled by `none`. -/
def calculate_relative_line_number (scope_text : RStr) (scope_span error_span : Span) :
    Option Nat :=
  if error_span.start < scope_span.start then some 0
  else
    let offset_in_scope := error_span.start - scope_span.start
    if offset_in_scope ≥ utf8Len scope_text then
      some ((rustLines scope_text).length - 1)
    else if isCharBoundary scope_text offset_in_scope then
      some ((takeBytes scope_text offset_in_scope).count '\n')
    else none

/-- Omission marker line emitted by function-scope truncation. -/
def omissionMarker (n : Nat) : RStr :=
  ("┄┄┄ (" ++ toString n ++ " lines omitted) ┄┄┄").toList

/-- Rust `truncate_function_scope` (code_context.rs): first line, optional
omission marker, a five-line window around the error, optional omission
marker, last line. Indexing `lines[0]` would panic on an empty list (`none`;
unreachable from `apply_truncation`, which only calls this with at least 15
lines). -/
def truncate_function_scope (lines : List RStr) (error_line total_lines : Nat) :
    Option (RStr × Option TruncationInfo) :=
  match lines with
  | [] => none
  | line0 :: _ =>
    let context_start := max (error_line - 2) 1
    let part2 : List RStr :=
      if context_start > 1 then [omissionMarker (context_start - 1)] else []
    let secs1 : List (Nat × Nat) :=
      if context_start > 1 then [(1, context_start - 1)] else []
    let error_start := error_line - 2
    let error_end := min (error_line + 2) (total_lines - 1)
    let window := (List.range' error_start (error_end + 1 - error_start)).filterMap
      (fun i => if h : i < lines.length then some (lines.get ⟨i, h⟩) else none)
    let last_line_idx := total_lines - 1
    let part3 : List RStr :=
      if error_end < last_line_idx - 1
      then [omissionMarker (last_line_idx - error_end - 1)] else []
    let secs2 : List (Nat × Nat) :=
      if error_end < last_line_idx - 1 then [(error_end + 1, last_line_idx - 1)] else []
    let part4 : List RStr :=
      if h : last_line_idx < lines.length then [lines.get ⟨last_line_idx, h⟩] else []
    let displayed := line0 :: (part2 ++ window ++ part3 ++ part4)
    some (joinNl displayed,
      some ⟨total_lines, displayed.length, secs1 ++ secs2⟩)

/-- Rust `find_context_start` (code_context.rs), written with the scan
position as the structural recursion argument; `seen` is the running
`lines_seen` counter checked against `MAX_LINES_BEFORE = 3`. -/
def find_context_start_go (lines : List RStr) : Nat → Nat → Nat
  | 0, _ => 0
  | start + 1, seen =>
    if seen ≥ 3 then start + 1
    else if trim (lines.getD start []) = [] then start + 1
    else if trim (lines.getD start []) = ['\x7d'] ∨
        (trim (lines.getD start [])).head? = some '\x7d' then start
    else find_context_start_go lines start (seen + 1)

def find_context_start (lines : List RStr) (error_line : Nat) : Nat :=
  find_context_start_go lines error_line 0

/-- Rust `find_context_end` (code_context.rs), scanning downward. The Rust
loop counts `lines_seen` upward against `MAX_LINES_AFTER = 3`; it is embedded
with the remaining budget `3 - lines_seen` as the (structurally decreasing)
recursion argument, so the loop condition `lines_seen < 3` becomes the
pattern `fuel + 1` and the loop entry uses budget 3. -/
def find_context_end_go (lines : List RStr) (total : Nat) : Nat → Nat → Nat
  | e, 0 => e
  | e, fuel + 1 =>
    if e < total - 1 then
      if trim (lines.getD (e + 1) []) = [] then e
      else if is_block_start (trim (lines.getD (e + 1) [])) then e
      else find_context_end_go lines total (e + 1) fuel
    else e

def find_context_end (lines : List RStr) (error_line total_lines : Nat) : Nat :=
  find_context_end_go lines total_lines error_line 3

/-- Rust `truncate_module_scope` (code_context.rs): the window between the
two boundary scans, joined with newlines, and never any truncation report.
With no lines at all, `find_context_end` evaluates `total_lines - 1` on
`usize` zero and the subsequent indexing panics, modelled by `none`
(unreachable from well-formed callers; kept for fidelity). -/
def truncate_module_scope (lines : List RStr) (error_line total_lines : Nat) :
    Option (RStr × Option TruncationInfo) :=
  if total_lines = 0 then none
  else
    let context_start := find_context_start lines error_line
    let context_end := find_context_end lines error_line total_lines
    let displayed := (List.range' context_start (context_end + 1 - context_start)).filterMap
      (fun i => if h : i < lines.length then some (lines.get ⟨i, h⟩) else none)
    some (joinNl displayed, none)

/-- Rust `apply_truncation` (code_context.rs): full text unchanged for short
function-like scopes, window extraction otherwise; the relative line number
is always computed first (its possible panic is propagated). -/
def apply_truncation (full_code : RStr) (error_span scope_span : Span)
    (scope_type : ScopeType) : Option (RStr × Option TruncationInfo) :=
  let lines := rustLines full_code
  let line_count := lines.length
  match calculate_relative_line_number full_code scope_span error_span with
  | none => none
  | some error_line =>
    match scope_type with
    | .Function | .Method | .TypeUtility =>
      if line_count < 15 then some (full_code, none)
      else truncate_function_scope lines error_line line_count
    | .ModuleLevel => truncate_module_scope lines error_line line_count

theorem joinNl_cons_cons (a b : RStr) (ls : List RStr) :
    joinNl (a :: b :: ls) = a ++ '\n' :: joinNl (b :: ls) := rfl

theorem joinNl_ne_nil_of_cons_cons (a b : RStr) (ls : List RStr) :
    joinNl (a :: b :: ls) ≠ [] := by
  rw [joinNl_cons_cons]
  intro h
  have hl := congrArg List.length h
  simp at hl

/-- Function-scope truncation always succeeds on a nonempty line list, always
attaches a truncation report, and produces a nonempty display whenever the
last line index is in range (as it is when `total` is the line count). -/
theorem truncate_function_scope_spec (el total : Nat) (lines : List RStr)
    (hne : lines ≠ []) (hlt : total - 1 < lines.length) :
    ∃ d info, truncate_function_scope lines el total = some (d, some info) ∧
      d ≠ [] := by
  match lines, hne with
  | l0 :: rest, _ =>
    simp only [truncate_function_scope]
    refine ⟨_, _, rfl, ?_⟩
    rw [dif_pos hlt]
    set t := ((if max (el - 2) 1 > 1 then [omissionMarker (max (el - 2) 1 - 1)] else []) ++
      (List.range' (el - 2) (min (el + 2) (total - 1) + 1 - (el - 2))).filterMap
        (fun i => if h : i < (l0 :: rest).length
          then some ((l0 :: rest).get ⟨i, h⟩) else none) ++
      (if min (el + 2) (total - 1) < total - 1 - 1
        then [omissionMarker (total - 1 - min (el + 2) (total - 1) - 1)] else []) ++
      [(l0 :: rest).get ⟨total - 1, hlt⟩]) with ht
    have htne : t ≠ [] := by
      rw [ht]
      simp
    obtain ⟨b, L, hbl⟩ := List.exists_cons_of_ne_nil htne
    rw [hbl]
    exact joinNl_ne_nil_of_cons_cons _ _ _

/-- Claim C5 (code bug): the 15-line boundary is honoured whenever the
relative-line computation completes — fewer than 15 lines are returned
verbatim with no truncation report, 15 or more always truncate and attach a
report — but the claim as stated fails on the code: for the one-line text
consisting of the single character AcuteE (2 UTF-8 bytes) with error span
starting at byte 1 (inside the character) and scope span 0..2, the Rust code
panics slicing `scope_text[..1]` instead of returning the text unchanged;
the model evaluates to `none` there. -/
theorem C5_fifteen_line_boundary :
    apply_truncation ['é'] ⟨1, 1⟩ ⟨0, 2⟩ ScopeType.Function = none ∧
    ∀ (full : RStr) (err scope : Span) (st : ScopeType) (el : Nat),
      (st = ScopeType.Function ∨ st = ScopeType.Method ∨ st = ScopeType.TypeUtility) →
      calculate_relative_line_number full scope err = some el →
      ((rustLines full).length < 15 →
        apply_truncation full err scope st = some (full, none)) ∧
      (15 ≤ (rustLines full).length →
        ∃ d info, apply_truncation full err scope st = some (d, some info)) := by
  constructor
  · decide
  · intro full err scope st el hst hrel
    have hbody : ∀ _ : Unit,
        ((rustLines full).length < 15 →
          (if (rustLines full).length < 15 then some (full, none)
            else truncate_function_scope (rustLines full) el (rustLines full).length)
            = some (full, none)) ∧
        (15 ≤ (rustLines full).length →
          ∃ d info,
            (if (rustLines full).length < 15 then some (full, none)
              else truncate_function_scope (rustLines full) el (rustLines full).length)
              = some (d, some info)) := by
      intro _
      constructor
      · intro hlt
        rw [if_pos hlt]
      · intro hge
        have hne : rustLines full ≠ [] := by
          intro h0
          rw [h0] at hge
          simp at hge
        obtain ⟨d, info, heq, -⟩ :=
          truncate_function_scope_spec el (rustLines full).length (rustLines full)
            hne (by omega)
        exact ⟨d, info, by rw [if_neg (by omega)]; exact heq⟩
    rcases hst with rfl | rfl | rfl <;>
      simpa only [apply_truncation, hrel] using hbody ()

/-- Closed instance of C5: a two-line function-scope text is returned
verbatim with no truncation report. -/
theorem C5_fifteen_line_boundary_witness :
    apply_truncation ("a\nb".toList) ⟨0, 1⟩ ⟨0, 3⟩ ScopeType.Function =
      some ("a\nb".toList, none) :=
  (C5_fifteen_line_boundary.2 ("a\nb".toList) ⟨0, 1⟩ ⟨0, 3⟩ ScopeType.Function 0
    (Or.inl rfl) (by decide)).1 (by decide)

/-- Counterexample to claim C7 as stated: the non-empty one-character input
text consisting of a single newline, under ModuleLevel scope, produces an
empty display string (the error line is the single empty line, and both
boundary scans stop immediately), with no panic involved. -/
theorem C7_module_level_empty_display :
    apply_truncation ['\n'] ⟨0, 0⟩ ⟨0, 1⟩ ScopeType.ModuleLevel =
      some ([], none) := by decide

/-- Claim C7 (amended): for Function, Method and TypeUtility scopes, whenever
`apply_truncation` returns at all (the relative-line computation panics on
error offsets falling inside a multi-byte character, see C5), the display
produced from a non-empty input text is non-empty; for ModuleLevel scope the
display can be empty (see the counterexample). -/
theorem C7_truncation_nonempty (full : RStr) (err scope : Span) (st : ScopeType)
    (hfull : full ≠ []) (hst : st ≠ ScopeType.ModuleLevel)
    (d : RStr) (info : Option TruncationInfo)
    (h : apply_truncation full err scope st = some (d, info)) : d ≠ [] := by
  rcases hrel : calculate_relative_line_number full scope err with _ | el
  · simp only [apply_truncation, hrel] at h
    exact Option.noConfusion h
  · have hst3 : st = ScopeType.Function ∨ st = ScopeType.Method ∨
        st = ScopeType.TypeUtility := by
      cases st
      · exact Or.inl rfl
      · exact Or.inr (Or.inl rfl)
      · exact Or.inr (Or.inr rfl)
      · exact absurd rfl hst
    have hbody :
        (if (rustLines full).length < 15 then some (full, none)
          else truncate_function_scope (rustLines full) el (rustLines full).length)
          = some (d, info) → d ≠ [] := by
      intro hb
      by_cases hlt : (rustLines full).length < 15
      · rw [if_pos hlt] at hb
        have hfd : full = d := congrArg Prod.fst (Option.some.inj hb)
        exact hfd ▸ hfull
      · rw [if_neg hlt] at hb
        have hne : rustLines full ≠ [] := by
          intro h0
          rw [h0] at hlt
          simp at hlt
        obtain ⟨d2, i2, heq, hd2⟩ :=
          truncate_function_scope_spec el (rustLines full).length (rustLines full)
            hne (by omega)
        rw [heq] at hb
        have hdd : d2 = d := congrArg Prod.fst (Option.some.inj hb)
        exact hdd ▸ hd2
    rcases hst3 with rfl | rfl | rfl <;>
      (apply hbody; simpa only [apply_truncation, hrel] using h)

/-- Closed instance of the amended C7: a one-character function-scope text
produces itself as a non-empty display. -/
theorem C7_truncation_nonempty_witness :
    apply_truncation ['x'] ⟨0, 0⟩ ⟨0, 1⟩ ScopeType.Function =
      some (['x'], none) ∧ (['x'] : RStr) ≠ [] :=
  ⟨by decide,
    C7_truncation_nonempty ['x'] ⟨0, 0⟩ ⟨0, 1⟩ ScopeType.Function (by decide)
      (by decide) ['x'] none (by decide)⟩

/-- Combined invariant of the upward boundary scan: the result is between
`start - (3 - seen)` and `start`; every line scanned past is non-blank; every
line strictly inside the scanned region does not begin with a closing brace;
and the scan stopped for one of the four possible reasons (text start, blank
line above, included closing-brace line, or line budget exhausted). -/
theorem find_context_start_go_spec (lines : List RStr) : ∀ start seen,
    find_context_start_go lines start seen ≤ start ∧
    start - find_context_start_go lines start seen ≤ 3 - seen ∧
    (∀ j, find_context_start_go lines start seen ≤ j → j < start →
      trim (lines.getD j []) ≠ []) ∧
    (∀ j, find_context_start_go lines start seen < j → j < start →
      (trim (lines.getD j [])).head? ≠ some '\x7d') ∧
    (find_context_start_go lines start seen = 0 ∨
      trim (lines.getD (find_context_start_go lines start seen - 1) []) = [] ∨
      (trim (lines.getD (find_context_start_go lines start seen) [])).head? =
        some '\x7d' ∨
      start - find_context_start_go lines start seen = 3 - seen) := by
  intro start
  induction start with
  | zero =>
    intro seen
    simp only [find_context_start_go]
    exact ⟨Nat.le_refl _, by omega, fun j hj1 hj2 => absurd hj2 (by omega),
      fun j hj1 hj2 => absurd hj2 (by omega), by simp⟩
  | succ s ih =>
    intro seen
    rw [find_context_start_go]
    by_cases h1 : seen ≥ 3
    · rw [if_pos h1]
      exact ⟨Nat.le_refl _, by omega, fun j hj1 hj2 => absurd (by omega : (s:Nat) < s) (by omega),
        fun j hj1 hj2 => absurd (by omega : (s:Nat) < s) (by omega),
        Or.inr (Or.inr (Or.inr (by omega)))⟩
    · rw [if_neg h1]
      by_cases h2 : trim (lines.getD s []) = []
      · rw [if_pos h2]
        refine ⟨Nat.le_refl _, by omega,
          fun j hj1 hj2 => absurd (by omega : (s:Nat) < s) (by omega),
          fun j hj1 hj2 => absurd (by omega : (s:Nat) < s) (by omega),
          Or.inr (Or.inl ?_)⟩
        simpa using h2
      · rw [if_neg h2]
        by_cases h3 : trim (lines.getD s []) = ['\x7d'] ∨
            (trim (lines.getD s [])).head? = some '\x7d'
        · rw [if_pos h3]
          refine ⟨by omega, by omega, fun j hj1 hj2 => ?_,
            fun j hj1 hj2 => absurd (by omega : (s:Nat) < s) (by omega),
            Or.inr (Or.inr (Or.inl ?_))⟩
          · have hjs : j = s := by omega
            rw [hjs]
            exact h2
          · rcases h3 with h3 | h3
            · rw [h3]
              rfl
            · exact h3
        · rw [if_neg h3]
          obtain ⟨ih1, ih2, ih3, ih4, ih5⟩ := ih (seen + 1)
          refine ⟨by omega, by omega, fun j hj1 hj2 => ?_, fun j hj1 hj2 => ?_, ?_⟩
          · by_cases hjs : j = s
            · rw [hjs]
              exact h2
            · exact ih3 j hj1 (by omega)
          · by_cases hjs : j = s
            · rw [hjs]
              intro hh
              exact h3 (Or.inr hh)
            · exact ih4 j hj1 (by omega)
          · rcases ih5 with h | h | h | h
            · exact Or.inl h
            · exact Or.inr (Or.inl h)
            · exact Or.inr (Or.inr (Or.inl h))
            · exact Or.inr (Or.inr (Or.inr (by omega)))

/-- Combined invariant of the downward boundary scan: the result is between
`e` and `e + fuel`; every line scanned past is non-blank and does not open a
new named block; and the scan stopped for one of the four possible reasons
(text end, blank line below, block-opening line below, or budget
exhausted). -/
theorem find_context_end_go_spec (lines : List RStr) (total : Nat) : ∀ fuel e,
    e ≤ find_context_end_go lines total e fuel ∧
    find_context_end_go lines total e fuel - e ≤ fuel ∧
    (∀ j, e < j → j ≤ find_context_end_go lines total e fuel →
      trim (lines.getD j []) ≠ [] ∧
      is_block_start (trim (lines.getD j [])) = false) ∧
    (¬ (find_context_end_go lines total e fuel < total - 1) ∨
      trim (lines.getD (find_context_end_go lines total e fuel + 1) []) = [] ∨
      is_block_start (trim (lines.getD (find_context_end_go lines total e fuel + 1) []))
        = true ∨
      find_context_end_go lines total e fuel - e = fuel) := by
  intro fuel
  induction fuel with
  | zero =>
    intro e
    simp only [find_context_end_go]
    exact ⟨Nat.le_refl _, by omega, fun j hj1 hj2 => absurd (by omega : e < e) (by omega),
      Or.inr (Or.inr (Or.inr (by omega)))⟩
  | succ fuel ih =>
    intro e
    rw [find_context_end_go]
    by_cases h1 : e < total - 1
    · rw [if_pos h1]
      by_cases h2 : trim (lines.getD (e + 1) []) = []
      · rw [if_pos h2]
        exact ⟨Nat.le_refl _, by omega,
          fun j hj1 hj2 => absurd (by omega : e < e) (by omega),
          Or.inr (Or.inl h2)⟩
      · rw [if_neg h2]
        by_cases h3 : is_block_start (trim (lines.getD (e + 1) [])) = true
        · rw [if_pos h3]
          exact ⟨Nat.le_refl _, by omega,
            fun j hj1 hj2 => absurd (by omega : e < e) (by omega),
            Or.inr (Or.inr (Or.inl h3))⟩
        · rw [if_neg h3]
          obtain ⟨ih1, ih2, ih3, ih4⟩ := ih (e + 1)
          refine ⟨by omega, by omega, fun j hj1 hj2 => ?_, ?_⟩
          · by_cases hje : j = e + 1
            · rw [hje]
              refine ⟨h2, ?_⟩
              simpa using h3
            · exact ih3 j (by omega) hj2
          · rcases ih4 with h | h | h | h
            · exact Or.inl h
            · exact Or.inr (Or.inl h)
            · exact Or.inr (Or.inr (Or.inl h))
            · exact Or.inr (Or.inr (Or.inr (by omega)))
    · rw [if_neg h1]
      exact ⟨Nat.le_refl _, by omega,
        fun j hj1 hj2 => absurd (by omega : e < e) (by omega), Or.inl h1⟩

theorem find_context_start_spec (lines : List RStr) (el : Nat) :
    find_context_start lines el ≤ el ∧ el - find_context_start lines el ≤ 3 ∧
    (∀ j, find_context_start lines el ≤ j → j < el → trim (lines.getD j []) ≠ []) ∧
    (∀ j, find_context_start lines el < j → j < el →
      (trim (lines.getD j [])).head? ≠ some '\x7d') ∧
    (find_context_start lines el = 0 ∨
      trim (lines.getD (find_context_start lines el - 1) []) = [] ∨
      (trim (lines.getD (find_context_start lines el) [])).head? = some '\x7d' ∨
      el - find_context_start lines el = 3) :=
  find_context_start_go_spec lines el 0

theorem find_context_end_spec (lines : List RStr) (el total : Nat) :
    el ≤ find_context_end lines el total ∧ find_context_end lines el total - el ≤ 3 ∧
    (∀ j, el < j → j ≤ find_context_end lines el total →
      trim (lines.getD j []) ≠ [] ∧
      is_block_start (trim (lines.getD j [])) = false) ∧
    (¬ (find_context_end lines el total < total - 1) ∨
      trim (lines.getD (find_context_end lines el total + 1) []) = [] ∨
      is_block_start (trim (lines.getD (find_context_end lines el total + 1) [])) = true ∨
      find_context_end lines el total - el = 3) :=
  find_context_end_go_spec lines total 3 el

/-- Window of input lines displayed by module-level truncation. -/
def moduleWindow (lines : List RStr) (el : Nat) : List RStr :=
  (List.range' (find_context_start lines el)
    (find_context_end lines el lines.length + 1 - find_context_start lines el)).filterMap
    (fun i => if h : i < lines.length then some (lines.get ⟨i, h⟩) else none)

theorem moduleWindow_mem (lines : List RStr) (el : Nat) :
    ∀ l ∈ moduleWindow lines el, l ∈ lines := by
  intro l hl
  unfold moduleWindow at hl
  rw [List.mem_filterMap] at hl
  obtain ⟨i, -, hi⟩ := hl
  by_cases h : i < lines.length
  · rw [dif_pos h] at hi
    rw [← Option.some.inj hi]
    exact List.get_mem lines i h
  · rw [dif_neg h] at hi
    exact Option.noConfusion hi

/-- Claim C6 (code bug): whenever the relative-line computation completes and
the text has at least one line, ModuleLevel truncation always performs
boundary detection regardless of size — the display is exactly the window
between the two boundary scans (so it contains only verbatim input lines and
never an omission marker), the window reaches at most 3 lines above and 3
lines below the error line, lines scanned past are non-blank (upward: a
closing-brace line may appear only as the first included line; downward: no
block-opening line is included), each scan stops only at the text edge, a
blank line, a brace boundary, or the 3-line budget, and the truncation report
is always `none`. The claim as stated nevertheless fails on the code: on the
two-character text with a 1-byte character followed by a 2-byte character and
error span starting at byte 2 (inside the second character), scope span 0..3,
the Rust code panics slicing `scope_text[..2]` instead of producing a window;
the model evaluates to `none` there. -/
theorem C6_module_level_window :
    apply_truncation ['a', 'é'] ⟨2, 2⟩ ⟨0, 3⟩ ScopeType.ModuleLevel = none ∧
    ∀ (full : RStr) (err scope : Span) (el : Nat),
      calculate_relative_line_number full scope err = some el →
      rustLines full ≠ [] →
      ∀ s e, s = find_context_start (rustLines full) el →
        e = find_context_end (rustLines full) el (rustLines full).length →
        apply_truncation full err scope ScopeType.ModuleLevel =
          some (joinNl (moduleWindow (rustLines full) el), none) ∧
        (∀ l ∈ moduleWindow (rustLines full) el, l ∈ rustLines full) ∧
        s ≤ el ∧ el - s ≤ 3 ∧ el ≤ e ∧ e - el ≤ 3 ∧
        (∀ j, s ≤ j → j < el → trim ((rustLines full).getD j []) ≠ []) ∧
        (∀ j, s < j → j < el →
          (trim ((rustLines full).getD j [])).head? ≠ some '\x7d') ∧
        (∀ j, el < j → j ≤ e → trim ((rustLines full).getD j []) ≠ [] ∧
          is_block_start (trim ((rustLines full).getD j [])) = false) ∧
        (s = 0 ∨ trim ((rustLines full).getD (s - 1) []) = [] ∨
          (trim ((rustLines full).getD s [])).head? = some '\x7d' ∨ el - s = 3) ∧
        (¬ (e < (rustLines full).length - 1) ∨
          trim ((rustLines full).getD (e + 1) []) = [] ∨
          is_block_start (trim ((rustLines full).getD (e + 1) [])) = true ∨
          e - el = 3) := by
  constructor
  · decide
  · intro full err scope el hrel hne s e hs he
    have hlen : ¬ ((rustLines full).length = 0) := by
      intro h0
      exact hne (List.length_eq_zero.mp h0)
    obtain ⟨f1, f2, f3, f4, f5⟩ := find_context_start_spec (rustLines full) el
    obtain ⟨g1, g2, g3, g4⟩ :=
      find_context_end_spec (rustLines full) el (rustLines full).length
    subst hs
    subst he
    refine ⟨?_, moduleWindow_mem _ _, f1, f2, g1, g2, f3, f4, g3, f5, g4⟩
    simp only [apply_truncation, hrel]
    rw [truncate_module_scope, if_neg hlen]
    rfl

/-- Closed instance of C6: a two-line text with the error on the second line
displays the whole two-line window with no truncation report. -/
theorem C6_module_level_window_witness :
    apply_truncation ("x\ny".toList) ⟨2, 2⟩ ⟨0, 3⟩ ScopeType.ModuleLevel =
      some (joinNl (moduleWindow (rustLines ("x\ny".toList)) 1), none) :=
  (C6_module_level_window.2 ("x\ny".toList) ⟨2, 2⟩ ⟨0, 3⟩ 1 (by decide) (by decide)
    0 1 (by decide) (by decide)).1

/-! ### The scope locator -/

/-- Result of scope detection (code_context.rs `ScopeInfo`). -/
structure ScopeInfo where
  span : Span
  scope_type : ScopeType
  name : String
deriving DecidableEq, Repr

/-- Method key shapes distinguished by `visit_method_definition`
(oxc `PropertyKey`). -/
inductive PropertyKey where
  | StaticIdentifier (name : String)
  | PrivateIdentifier (name : String)
  | OtherKey
deriving DecidableEq, Repr

/-- Scope-bearing syntax tree provided by the external oxc parser, restricted
to the node shapes the `ScopeFinder` visitor distinguishes: functions and
classes carry an optional identifier, method definitions a key, type aliases
and interface declarations a name; every other node only passes traversal
through to its children. -/
inductive AstNode where
  | function (id : Option String) (span : Span) (children : List AstNode)
  | classDecl (id : Option String) (span : Span) (children : List AstNode)
  | methodDef (key : PropertyKey) (span : Span) (children : List AstNode)
  | tsTypeAlias (name : String) (span : Span) (children : List AstNode)
  | tsInterface (name : String) (span : Span) (children : List AstNode)
  | otherNode (children : List AstNode)

/-- Method name extraction in `visit_method_definition`. -/
def methodName : PropertyKey → String
  | .StaticIdentifier n => n
  | .PrivateIdentifier n => "#" ++ n
  | .OtherKey => "method"

/-- Keep-the-smaller-span update shared by `visit_function`, `visit_class`,
`visit_ts_type_alias_declaration` and `visit_ts_interface_declaration`:
replace the current result when absent or wider than the candidate. -/
def updateIfSmaller (st : Option ScopeInfo) (cand : ScopeInfo) : Option ScopeInfo :=
  match st with
  | none => some cand
  | some prev => if prev.span.size > cand.span.size then some cand else st

mutual

/-- One step of the `ScopeFinder` visitor (code_context.rs): each overridden
`visit_*` method returns early — skipping the whole subtree — when the node
span does not contain the error span, updates the running result according to
the node kind, then walks the children. -/
def visitNode (err : Span) (st : Option ScopeInfo) : AstNode → Option ScopeInfo
  | .function id sp children =>
    if ! sp.contains_inclusive err then st
    else
      visitList err
        (match id with
          | some name => updateIfSmaller st ⟨sp, ScopeType.Function, name⟩
          | none => st)
        children
  | .classDecl id sp children =>
    if ! sp.contains_inclusive err then st
    else
      visitList err
        (match id with
          | some cname => updateIfSmaller st ⟨sp, ScopeType.Method, cname⟩
          | none => st)
        children
  | .methodDef key sp children =>
    if ! sp.contains_inclusive err then st
    else
      visitList err
        (some ⟨sp, ScopeType.Method,
          match st with
          | some prev =>
            if prev.span.contains_inclusive sp
            then prev.name ++ "::" ++ methodName key
            else methodName key
          | none => methodName key⟩)
        children
  | .tsTypeAlias name sp children =>
    if ! sp.contains_inclusive err then st
    else visitList err (updateIfSmaller st ⟨sp, ScopeType.TypeUtility, name⟩) children
  | .tsInterface name sp children =>
    if ! sp.contains_inclusive err then st
    else visitList err (updateIfSmaller st ⟨sp, ScopeType.TypeUtility, name⟩) children
  | .otherNode children => visitList err st children

/-- Pre-order traversal of a node list, threading the visitor state. -/
def visitList (err : Span) (st : Option ScopeInfo) : List AstNode → Option ScopeInfo
  | [] => st
  | n :: ns => visitList err (visitNode err st n) ns

end

/-- Rust `find_containing_scope` (code_context.rs): run the visitor over the
parsed program and fall back to a module-level scope named `global` spanning
the whole file. The Rust function returns `Result` but only ever `Ok`. -/
def find_containing_scope (source_len : Nat) (program : List AstNode)
    (error_span : Span) : ScopeInfo :=
  (visitList error_span none program).getD
    ⟨⟨0, source_len⟩, ScopeType.ModuleLevel, "global"⟩

mutual

/-- Whether some declared scope in the tree would set the visitor result:
a named function or class, or any method definition, type alias or interface
declaration, whose span contains the error span. -/
def nodeSets (err : Span) : AstNode → Bool
  | .function id sp children =>
    (id.isSome && sp.contains_inclusive err) || listSets err children
  | .classDecl id sp children =>
    (id.isSome && sp.contains_inclusive err) || listSets err children
  | .methodDef _ sp children =>
    sp.contains_inclusive err || listSets err children
  | .tsTypeAlias _ sp children =>
    sp.contains_inclusive err || listSets err children
  | .tsInterface _ sp children =>
    sp.contains_inclusive err || listSets err children
  | .otherNode children => listSets err children

def listSets (err : Span) : List AstNode → Bool
  | [] => false
  | n :: ns => nodeSets err n || listSets err ns

end

mutual

/-- The visitor leaves its state untouched on a subtree in which no declared
scope contains the error span. -/
theorem visitNode_no_set (err : Span) :
    ∀ (st : Option ScopeInfo) (n : AstNode),
    nodeSets err n = false → visitNode err st n = st
  | st, .function id sp children, h => by
    rw [nodeSets] at h
    simp only [visitNode]
    simp only [Bool.or_eq_false_iff, Bool.and_eq_false_iff] at h
    by_cases hc : sp.contains_inclusive err = true
    · rw [if_neg (by simp [hc])]
      cases id with
      | none => exact visitList_no_set err st children h.2
      | some name =>
        rcases h.1 with h1 | h1
        · simp at h1
        · rw [hc] at h1
          simp at h1
    · rw [if_pos (by simp [Bool.not_eq_true _ ▸ hc])]
  | st, .classDecl id sp children, h => by
    rw [nodeSets] at h
    simp only [visitNode]
    simp only [Bool.or_eq_false_iff, Bool.and_eq_false_iff] at h
    by_cases hc : sp.contains_inclusive err = true
    · rw [if_neg (by simp [hc])]
      cases id with
      | none => exact visitList_no_set err st children h.2
      | some name =>
        rcases h.1 with h1 | h1
        · simp at h1
        · rw [hc] at h1
          simp at h1
    · rw [if_pos (by simp [Bool.not_eq_true _ ▸ hc])]
  | st, .methodDef key sp children, h => by
    rw [nodeSets] at h
    simp only [visitNode]
    simp only [Bool.or_eq_false_iff] at h
    rw [if_pos (by simp [h.1])]
  | st, .tsTypeAlias name sp children, h => by
    rw [nodeSets] at h
    simp only [visitNode]
    simp only [Bool.or_eq_false_iff] at h
    rw [if_pos (by simp [h.1])]
  | st, .tsInterface name sp children, h => by
    rw [nodeSets] at h
    simp only [visitNode]
    simp only [Bool.or_eq_false_iff] at h
    rw [if_pos (by simp [h.1])]
  | st, .otherNode children, h => by
    rw [nodeSets] at h
    simp only [visitNode]
    exact visitList_no_set err st children h

theorem visitList_no_set (err : Span) :
    ∀ (st : Option ScopeInfo) (l : List AstNode),
    listSets err l = false → visitList err st l = st
  | st, [], _ => rfl
  | st, n :: ns, h => by
    rw [listSets] at h
    simp only [Bool.or_eq_false_iff] at h
    rw [visitList, visitNode_no_set err st n h.1]
    exact visitList_no_set err st ns h.2

end

/-- Claim C4: the scope locator is total (the embedding returns a plain
value, as the Rust function always returns `Ok`), and a diagnostic span that
no declared scope contains resolves to the module-level fallback: scope type
`ModuleLevel`, name `global`, spanning the file from byte 0 to its length. -/
theorem C4_module_fallback (source_len : Nat) (program : List AstNode) (err : Span)
    (h : listSets err program = false) :
    find_containing_scope source_len program err =
      ⟨⟨0, source_len⟩, ScopeType.ModuleLevel, "global"⟩ := by
  unfold find_containing_scope
  rw [visitList_no_set err none program h]
  rfl

/-- Closed instance of C4: a diagnostic outside the only declared function
falls back to the global module-level scope. -/
theorem C4_module_fallback_witness :
    find_containing_scope 30 [AstNode.function (some "f") ⟨0, 10⟩ []] ⟨20, 25⟩ =
      ⟨⟨0, 30⟩, ScopeType.ModuleLevel, "global"⟩ :=
  C4_module_fallback 30 [AstNode.function (some "f") ⟨0, 10⟩ []] ⟨20, 25⟩ (by decide)

/-- Claim C3: for a named class containing a named method containing the
diagnostic span, the scope locator resolves to the method span (the smaller
of the two containing scopes) with scope type `Method` and the qualified name
`Class::method`, which differs from the bare class name. -/
theorem C3_scope_specificity (source_len : Nat) (cn mn : String) (cs ms ds : Span)
    (h1 : cs.contains_inclusive ds = true) (h2 : ms.contains_inclusive ds = true)
    (h3 : cs.contains_inclusive ms = true) :
    find_containing_scope source_len
      [AstNode.classDecl (some cn) cs
        [AstNode.methodDef (PropertyKey.StaticIdentifier mn) ms []]] ds =
      ⟨ms, ScopeType.Method, cn ++ "::" ++ mn⟩ ∧
    cn ++ "::" ++ mn ≠ cn := by
  constructor
  · unfold find_containing_scope
    simp [visitList, visitNode, updateIfSmaller, methodName, h1, h2, h3]
  · intro hcontra
    have hlen := congrArg String.length hcontra
    rw [String.length_append, String.length_append] at hlen
    have h2len : String.length "::" = 2 := rfl
    omega

/-- Closed instance of C3, the scenario of the claim: class `Foo` spanning
bytes 0..100 with method `bar` spanning 20..60 and a diagnostic at offset 30
resolves to the method scope named `Foo::bar`, not to `Foo`. -/
theorem C3_scope_specificity_witness :
    find_containing_scope 100
      [AstNode.classDecl (some "Foo") ⟨0, 100⟩
        [AstNode.methodDef (PropertyKey.StaticIdentifier "bar") ⟨20, 60⟩ []]] ⟨30, 31⟩ =
      ⟨⟨20, 60⟩, ScopeType.Method, "Foo" ++ "::" ++ "bar"⟩ ∧
    "Foo" ++ "::" ++ "bar" ≠ "Foo" :=
  C3_scope_specificity 100 "Foo" "bar" ⟨0, 100⟩ ⟨20, 60⟩ ⟨30, 31⟩
    (by decide) (by decide) (by decide)

/-! ### Error annotations -/

/-- Severity levels (error_annotations.rs `ErrorSeverity`). -/
inductive ErrorSeverity where
  | Error
  | Warning
  | Info
deriving DecidableEq, Repr

/-- RGB colour per severity. -/
def ErrorSeverity.color : ErrorSeverity → Nat × Nat × Nat
  | .Error => (255, 0, 0)
  | .Warning => (255, 165, 0)
  | .Info => (0, 150, 255)

/-- CSS class per severity. -/
def ErrorSeverity.css_class : ErrorSeverity → String
  | .Error => "error"
  | .Warning => "warning"
  | .Info => "info"

/-- ANSI sequence produced by
`AnsiBuilder::new().fg_rgb(r, g, b).underline().build()` (ansi.rs). -/
def underlineCode (rgb : Nat × Nat × Nat) : RStr :=
  ("\x1b[38;2;" ++ toString rgb.1 ++ ";" ++ toString rgb.2.1 ++ ";" ++
    toString rgb.2.2 ++ ";4m").toList

/-- ANSI reset sequence `AnsiBuilder::RESET` (ansi.rs). -/
def ansiReset : RStr := "\x1b[0m".toList

/-- Error annotation of error_annotations.rs (its Rust name is shortened to
fit this project's identifier conventions): the span is the single source of
truth, positions are derived on demand from the span and the source text. -/
structure ErrorAnnot where
  span : Span
  message : RStr
  severity : ErrorSeverity
deriving DecidableEq, Repr

/-- Rust `line` method: 1-based start line. The Rust method panics (`none`)
when the span start exceeds the source length — its explicit bounds check —
and also when the start is inside a multi-byte character, where the slice
`source[..start]` itself panics. -/
def ErrorAnnot.line (a : ErrorAnnot) (source : RStr) : Option Nat :=
  if a.span.start > utf8Len source then none
  else if isCharBoundary source a.span.start then
    some ((takeBytes source a.span.start).count '\n' + 1)
  else none

/-- Rust `column` method: 1-based start column; same panic conditions as
`line`. -/
def ErrorAnnot.column (a : ErrorAnnot) (source : RStr) : Option Nat :=
  if a.span.start > utf8Len source then none
  else if isCharBoundary source a.span.start then
    some ((afterLastNl (takeBytes source a.span.start)).length + 1)
  else none

/-- Rust `end_line` method: 1-based end line; panics (`none`) when the span
end exceeds the source length or is not a character boundary. -/
def ErrorAnnot.end_line (a : ErrorAnnot) (source : RStr) : Option Nat :=
  if a.span.stop > utf8Len source then none
  else if isCharBoundary source a.span.stop then
    some ((takeBytes source a.span.stop).count '\n' + 1)
  else none

/-- Rust `end_column` method: 1-based end column; same panic conditions as
`end_line`. -/
def ErrorAnnot.end_column (a : ErrorAnnot) (source : RStr) : Option Nat :=
  if a.span.stop > utf8Len source then none
  else if isCharBoundary source a.span.stop then
    some ((afterLastNl (takeBytes source a.span.stop)).length + 1)
  else none

/-- Line of the source displayed above the underline:
`lines[line_num - 1]` guarded exactly as in `render_console`. -/
def consoleLine (source : RStr) (line_num : Nat) : RStr :=
  if 0 < line_num ∧ line_num ≤ (rustLines source).length
  then (rustLines source).getD (line_num - 1) []
  else []

/-- Rust `ErrorAnnotation::render_console`: the error line, an underline of
spaces up to the start column followed by carets across the span width
(minimum one), wrapped in severity colour codes, then the message. The
position derivations can panic, and the `end_col - col` subtraction is a
checked `usize` subtraction, both modelled by `none`. -/
def ErrorAnnot.render_console (a : ErrorAnnot) (source : RStr) : Option RStr := do
  let line_num ← a.line source
  let col ← a.column source
  let end_col ← a.end_column source
  let error_line := consoleLine source line_num
  let end_line_num ← a.end_line source
  let underline_start := col - 1
  let underline_length ←
    if line_num = end_line_num then
      if end_col < col then none else some (end_col - col)
    else
      if error_line.length < underline_start then none
      else some (error_line.length - underline_start)
  some (error_line ++ '\n' ::
    (List.replicate underline_start ' ' ++ underlineCode a.severity.color ++
      List.replicate (max underline_length 1) '^' ++ ansiReset) ++ '\n' ::
    (underlineCode a.severity.color ++ a.message ++ ['\n']))

/-- Model of the external crate function `html_escape::encode_text`: replaces
the characters ampersand, less-than and greater-than by their HTML
entities. -/
def encodeText : RStr → RStr
  | [] => []
  | c :: cs =>
    (if c = '&' then "&amp;".toList
     else if c = '<' then "&lt;".toList
     else if c = '>' then "&gt;".toList
     else [c]) ++ encodeText cs

/-- Rust `ErrorAnnotation::render_html`: the empty string for out-of-bounds
spans; otherwise a popover fragment wrapping the escaped error text. The
slice `&source[start..end]` panics (`none`) on inverted or non-boundary
in-bounds spans. -/
def ErrorAnnot.render_html (a : ErrorAnnot) (source : RStr) (error_id : Nat) :
    Option RStr :=
  if a.span.start > utf8Len source ∨ a.span.stop > utf8Len source then some []
  else if a.span.stop < a.span.start ∨
      ¬ (isCharBoundary source a.span.start = true) ∨
      ¬ (isCharBoundary source a.span.stop = true) then none
  else
    some (("<span class=\"error-highlight " ++ a.severity.css_class ++
      "\" popovertarget=\"error-" ++ toString error_id ++
      "\" aria-describedby=\"error-" ++ toString error_id ++ "\">\n" ++
      "  <span class=\"squiggle\" aria-label=\"" ++ a.severity.css_class ++
      "\">").toList ++
      encodeText (byteSlice source a.span.start a.span.stop) ++
      ("</span>\n</span>\n<div id=\"error-" ++ toString error_id ++
        "\" popover role=\"alert\">\n  <div class=\"error-message\">").toList ++
      encodeText a.message ++ ("</div>\n</div>").toList)

theorem takeBytes_mono (s : RStr) : ∀ a b, a ≤ b →
    ∃ r, takeBytes s b = takeBytes s a ++ r := by
  induction s with
  | nil => intro a b _; exact ⟨[], rfl⟩
  | cons c cs ih =>
    intro a b hab
    by_cases ha : c.utf8Size ≤ a
    · have hb : c.utf8Size ≤ b := by omega
      obtain ⟨r, hr⟩ := ih (a - c.utf8Size) (b - c.utf8Size) (by omega)
      have e1 : takeBytes (c :: cs) b = c :: takeBytes cs (b - c.utf8Size) := by
        rw [takeBytes, if_pos hb]
      have e2 : takeBytes (c :: cs) a = c :: takeBytes cs (a - c.utf8Size) := by
        rw [takeBytes, if_pos ha]
      exact ⟨r, by rw [e1, e2, hr]; rfl⟩
    · have e2 : takeBytes (c :: cs) a = [] := by rw [takeBytes, if_neg ha]
      exact ⟨takeBytes (c :: cs) b, by rw [e2]; rfl⟩

theorem takeWhile_append_all (p : Char → Bool) : ∀ (l1 l2 : RStr),
    (∀ x ∈ l1, p x = true) →
    (l1 ++ l2).takeWhile p = l1 ++ l2.takeWhile p := by
  intro l1
  induction l1 with
  | nil => intro l2 _; rfl
  | cons c cs ih =>
    intro l2 h
    rw [List.cons_append, List.takeWhile_cons, h c (by simp), ih l2 (by
      intro x hx
      exact h x (by simp [hx]))]
    rfl

theorem afterLastNl_append_no_nl (p r : RStr) (h : ∀ x ∈ r, x ≠ '\n') :
    afterLastNl (p ++ r) = afterLastNl p ++ r := by
  unfold afterLastNl
  rw [List.reverse_append]
  rw [takeWhile_append_all _ r.reverse p.reverse (by
    intro x hx
    have hxr : x ∈ r := by simpa using hx
    simpa using h x hxr)]
  rw [List.reverse_append, List.reverse_reverse]

/-- Claim C9: the four position-derivation methods fail loudly (a panic,
modelled by `none` — never a silently wrong value) whenever the relevant span
offset exceeds the source length; on offsets that were validated in advance
(at most the source length and on character boundaries) they return the
1-based line and column derived from the stored span and the source text. -/
theorem C9_position_methods (a : ErrorAnnot) (source : RStr) :
    (utf8Len source < a.span.start →
      a.line source = none ∧ a.column source = none) ∧
    (utf8Len source < a.span.stop →
      a.end_line source = none ∧ a.end_column source = none) ∧
    (a.span.start ≤ utf8Len source → isCharBoundary source a.span.start = true →
      a.line source = some ((takeBytes source a.span.start).count '\n' + 1) ∧
      a.column source =
        some ((afterLastNl (takeBytes source a.span.start)).length + 1)) ∧
    (a.span.stop ≤ utf8Len source → isCharBoundary source a.span.stop = true →
      a.end_line source = some ((takeBytes source a.span.stop).count '\n' + 1) ∧
      a.end_column source =
        some ((afterLastNl (takeBytes source a.span.stop)).length + 1)) := by
  unfold ErrorAnnot.line ErrorAnnot.column ErrorAnnot.end_line ErrorAnnot.end_column
  refine ⟨fun h => ⟨?_, ?_⟩, fun h => ⟨?_, ?_⟩, fun h hb => ⟨?_, ?_⟩,
    fun h hb => ⟨?_, ?_⟩⟩ <;>
    first
      | rw [if_pos (by omega : a.span.start > utf8Len source)]
      | rw [if_pos (by omega : a.span.stop > utf8Len source)]
      | rw [if_neg (by omega : ¬ a.span.start > utf8Len source), if_pos hb]
      | rw [if_neg (by omega : ¬ a.span.stop > utf8Len source), if_pos hb]

/-- Closed instance of C9: a validated span on a two-line source yields its
derived line and column, and an out-of-bounds span on the same source makes
the line derivation panic. -/
theorem C9_position_methods_witness :
    ErrorAnnot.line ⟨⟨7, 12⟩, [], ErrorSeverity.Error⟩ ("line 1\nline 2".toList) =
      some ((takeBytes ("line 1\nline 2".toList) 7).count '\n' + 1) ∧
    ErrorAnnot.column ⟨⟨7, 12⟩, [], ErrorSeverity.Error⟩ ("line 1\nline 2".toList) =
      some ((afterLastNl (takeBytes ("line 1\nline 2".toList) 7)).length + 1) :=
  (C9_position_methods ⟨⟨7, 12⟩, [], ErrorSeverity.Error⟩
    ("line 1\nline 2".toList)).2.2.1 (by decide) (by decide)

/-- Claim C8: for an in-bounds span starting and ending on the same line at
1-based columns `c` through `e`, console rendering succeeds and its underline
consists of exactly `c - 1` spaces followed by the colour code, exactly
`max (e - c) 1` caret characters, and the reset code — so a zero-width span
still yields one caret. -/
theorem C8_underline_width (a : ErrorAnnot) (source : RStr)
    (h1 : a.span.start ≤ a.span.stop) (h2 : a.span.stop ≤ utf8Len source)
    (hb1 : isCharBoundary source a.span.start = true)
    (hb2 : isCharBoundary source a.span.stop = true)
    (hsame : (takeBytes source a.span.start).count '\n' =
      (takeBytes source a.span.stop).count '\n') :
    ∃ c e ln, a.column source = some c ∧ a.end_column source = some e ∧
      a.line source = some ln ∧ c ≤ e ∧
      a.render_console source = some (
        consoleLine source ln ++ '\n' ::
        (List.replicate (c - 1) ' ' ++ underlineCode a.severity.color ++
          List.replicate (max (e - c) 1) '^' ++ ansiReset) ++ '\n' ::
        (underlineCode a.severity.color ++ a.message ++ ['\n'])) := by
  have hstart_le : a.span.start ≤ utf8Len source := le_trans h1 h2
  obtain ⟨r, hr⟩ := takeBytes_mono source a.span.start a.span.stop h1
  have hcount : r.count '\n' = 0 := by
    rw [hr, List.count_append] at hsame
    omega
  have hnotmem : '\n' ∉ r := by
    intro hmem
    have := List.count_pos_iff.mpr hmem
    omega
  have hafter : afterLastNl (takeBytes source a.span.stop) =
      afterLastNl (takeBytes source a.span.start) ++ r := by
    rw [hr]
    exact afterLastNl_append_no_nl _ r (fun x hx heq => hnotmem (heq ▸ hx))
  have hline : a.line source =
      some ((takeBytes source a.span.start).count '\n' + 1) := by
    unfold ErrorAnnot.line
    rw [if_neg (by omega), if_pos hb1]
  have hcol : a.column source =
      some ((afterLastNl (takeBytes source a.span.start)).length + 1) := by
    unfold ErrorAnnot.column
    rw [if_neg (by omega), if_pos hb1]
  have hendline : a.end_line source =
      some ((takeBytes source a.span.start).count '\n' + 1) := by
    unfold ErrorAnnot.end_line
    rw [if_neg (by omega), if_pos hb2, hsame]
  have hendcol : a.end_column source =
      some ((afterLastNl (takeBytes source a.span.start)).length + r.length + 1) := by
    unfold ErrorAnnot.end_column
    rw [if_neg (by omega), if_pos hb2, hafter, List.length_append]
  refine ⟨(afterLastNl (takeBytes source a.span.start)).length + 1,
    (afterLastNl (takeBytes source a.span.start)).length + r.length + 1,
    (takeBytes source a.span.start).count '\n' + 1,
    hcol, hendcol, hline, by omega, ?_⟩
  unfold ErrorAnnot.render_console
  rw [hline, hcol, hendcol, hendline]
  simp only [Option.bind_eq_bind, Option.some_bind]
  rw [if_pos (trivial : True), if_neg (by omega)]

/-- Closed instance of C8, the scenario of the claim: a span covering byte
offsets 10 to 12 on a single line sits at columns 11 through 13, and its
underline is exactly 10 spaces followed by 2 carets (plus colour codes). -/
theorem C8_underline_width_witness :
    ∃ c e ln,
      ErrorAnnot.column ⟨⟨10, 12⟩, "msg".toList, ErrorSeverity.Error⟩
        ("const x = hello;".toList) = some c ∧
      ErrorAnnot.end_column ⟨⟨10, 12⟩, "msg".toList, ErrorSeverity.Error⟩
        ("const x = hello;".toList) = some e ∧
      ErrorAnnot.line ⟨⟨10, 12⟩, "msg".toList, ErrorSeverity.Error⟩
        ("const x = hello;".toList) = some ln ∧ c ≤ e ∧
      ErrorAnnot.render_console ⟨⟨10, 12⟩, "msg".toList, ErrorSeverity.Error⟩
        ("const x = hello;".toList) = some (
        consoleLine ("const x = hello;".toList) ln ++ '\n' ::
        (List.replicate (c - 1) ' ' ++
          underlineCode (ErrorSeverity.color ErrorSeverity.Error) ++
          List.replicate (max (e - c) 1) '^' ++ ansiReset) ++ '\n' ::
        (underlineCode (ErrorSeverity.color ErrorSeverity.Error) ++
          "msg".toList ++ ['\n'])) :=
  C8_underline_width ⟨⟨10, 12⟩, "msg".toList, ErrorSeverity.Error⟩
    ("const x = hello;".toList) (by decide) (by decide) (by decide) (by decide)
    (by decide)

/-- Claim C10: for every annotation whose span start or span end exceeds the
source length, HTML rendering returns the empty string — no panic (the model
returns `some`), no error report — while on the same span the terminal-path
line derivations panic. -/
theorem C10_html_out_of_bounds (a : ErrorAnnot) (source : RStr) (error_id : Nat)
    (h : utf8Len source < a.span.start ∨ utf8Len source < a.span.stop) :
    a.render_html source error_id = some [] ∧
    (utf8Len source < a.span.start → a.line source = none) ∧
    (utf8Len source < a.span.stop → a.end_line source = none) := by
  refine ⟨?_, fun hs => ?_, fun hs => ?_⟩
  · unfold ErrorAnnot.render_html
    rw [if_pos (by omega)]
  · unfold ErrorAnnot.line
    rw [if_pos (by omega : a.span.start > utf8Len source)]
  · unfold ErrorAnnot.end_line
    rw [if_pos (by omega : a.span.stop > utf8Len source)]

/-- Closed instance of C10: an annotation at bytes 100..105 over a 5-byte
source renders to the empty HTML string while its line derivation panics. -/
theorem C10_html_out_of_bounds_witness :
    ErrorAnnot.render_html ⟨⟨100, 105⟩, [], ErrorSeverity.Error⟩
      ("short".toList) 1 = some [] ∧
    (utf8Len ("short".toList) < 100 →
      ErrorAnnot.line ⟨⟨100, 105⟩, [], ErrorSeverity.Error⟩ ("short".toList) = none) ∧
    (utf8Len ("short".toList) < 105 →
      ErrorAnnot.end_line ⟨⟨100, 105⟩, [], ErrorSeverity.Error⟩ ("short".toList)
        = none) :=
  C10_html_out_of_bounds ⟨⟨100, 105⟩, [], ErrorSeverity.Error⟩ ("short".toList) 1
    (by decide)

end TA
